import Mathlib

/-!
Verification of the ODrive DFU flashing engine against its design notes.

The definitions below are shallow embeddings of the Python sources:
  * `odrive/dfuse/DfuDevice.py` — the USB DFU transport state machine,
  * `odrive/legacy_dfu.py`      — sector planning and the erase/write/verify
    orchestration,
  * `odrive/firmware.py`        — ELF section extraction.
USB traffic is modelled as an explicit trace of events (control requests and
sleeps); the device is modelled by the finite list of GETSTATUS replies it
will produce, consumed in order.
-/

set_option maxRecDepth 10000

namespace Dfu

/-- Device-reported DFU state, `DfuState` in `DfuDevice.py`. -/
inductive DfuState
  | appIdle
  | appDetach
  | dfuIdle
  | dfuDnloadSync
  | dfuDnloadBusy
  | dfuDnloadIdle
  | dfuManifestSync
  | dfuManifest
  | dfuManifestWaitReset
  | dfuUploadIdle
  | dfuError
  deriving DecidableEq, Repr

/-- Device-reported DFU status code, `DfuStatus` in `DfuDevice.py`. -/
inductive DfuStatus
  | ok
  | errTarget
  | errFile
  | errWrite
  | errErase
  | errCheckErased
  | errProg
  | errVerify
  | errAddress
  | errNotdone
  | errFirmware
  | errVendor
  | errUsbr
  | errPor
  | errUnknown
  | errStalledpkt
  deriving DecidableEq, Repr

/-- One GETSTATUS reply from the device: the decoded status byte (`msg[0]`),
the three raw poll-timeout bytes `msg[1]`, `msg[2]`, `msg[3]`, the decoded
state byte (`msg[4]`) and the status description string. -/
structure StatusMsg where
  status : DfuStatus
  b1 : Nat
  b2 : Nat
  b3 : Nat
  state : DfuState
  text : String
  deriving DecidableEq, Repr

/-- `msg[1] + (msg[2] << 8) + (msg[3] << 16)` in `_get_status`. -/
def pollTimeoutMs (m : StatusMsg) : Nat :=
  m.b1 + m.b2 * 256 + m.b3 * 65536

/-- A USB control request issued by the host, one constructor per
`Request` code used by `DfuDevice`. -/
inductive UsbRequest
  | detach (timeout : Nat)
  | dnload (blockNum : Nat) (data : List Nat)
  | upload (blockNum : Nat) (size : Nat)
  | getStatus
  | clrStatus
  | getState
  | abort
  deriving DecidableEq, Repr

/-- An observable host action: a USB control request or a sleep. -/
inductive Event
  | usb (r : UsbRequest)
  | sleepMs (ms : Nat)
  deriving DecidableEq, Repr

/-- Result of a transport operation: success (with the replies the device
has not consumed yet), a raised `DfuError(message, status, state, text)`,
a raised plain `Exception`, or exhaustion of the scripted replies (the
Python loop would keep blocking on the device). -/
inductive OpResult
  | ok (rest : List StatusMsg)
  | dfuErr (msg : String) (status : DfuStatus) (state : DfuState) (text : String)
  | exn (msg : String)
  | outOfReplies
  deriving DecidableEq, Repr

/-- Outcome of decoding a single GETSTATUS reply in `_get_status`. -/
inductive GsOut
  | ok (status : DfuStatus) (state : DfuState) (text : String)
  | exn (msg : String)
  deriving DecidableEq, Repr

/-- `DfuDevice._get_status` acting on one scripted reply: decode the
6-byte reply, raise on an unreasonable poll timeout, otherwise sleep for
the device-requested interval and return `(status, state, text)`. -/
def get_status_one (m : StatusMsg) : List Event × GsOut :=
  let p := pollTimeoutMs m
  if 10000 < p then
    ([Event.usb UsbRequest.getStatus], GsOut.exn "Device requested an unreasonable timeout")
  else
    ([Event.usb UsbRequest.getStatus, Event.sleepMs p], GsOut.ok m.status m.state m.text)

/-- `DfuDevice._expect_state`: poll `_get_status` in a loop; return on a
target state, keep polling on a busy state, raise `DfuError` otherwise. -/
def expect_state : List StatusMsg → List DfuState → List DfuState → String → List Event × OpResult
  | [], _, _, _ => ([Event.usb UsbRequest.getStatus], OpResult.outOfReplies)
  | m :: rest, busy, target, errText =>
    match get_status_one m with
    | (ev, GsOut.exn s) => (ev, OpResult.exn s)
    | (ev, GsOut.ok status state text) =>
      if state ∈ target then (ev, OpResult.ok rest)
      else if state ∈ busy then
        let r := expect_state rest busy target errText
        (ev ++ r.1, r.2)
      else (ev, OpResult.dfuErr errText status state text)

/-- `_address_to_4bytes`: little-endian 4-byte encoding of an address. -/
def _address_to_4bytes (a : Nat) : List Nat :=
  [a % 256, (a >>> 8) % 256, (a >>> 16) % 256, (a >>> 24) % 256]

/-- Value of a little-endian byte list (LSB first). -/
def leValue : List Nat → Nat
  | [] => 0
  | b :: bs => b + 256 * leValue bs

/-- A flash sector as parsed from the memory-layout interface string:
`{'addr': ..., 'len': ..., 'mode': ...}` in `DfuDevice.init`. -/
structure Sector where
  addr : Nat
  len : Nat
  mode : Char := 'g'
  deriving DecidableEq, Repr

/-- `DfuDevice._set_address`: download `SET_ADDRESS_POINTER (0x21)` plus the
little-endian address to block 0, then await DNBUSY → DNLOAD-IDLE. -/
def _set_address (replies : List StatusMsg) (addr : Nat) : List Event × OpResult :=
  let r := expect_state replies [DfuState.dfuDnloadBusy] [DfuState.dfuDnloadIdle]
    "Failed to set address."
  (Event.usb (UsbRequest.dnload 0 (0x21 :: _address_to_4bytes addr)) :: r.1, r.2)

/-- `DfuDevice._erase`: download `ERASE (0x41)` plus the little-endian
address to block 0, then await DNBUSY → DNLOAD-IDLE. -/
def _erase (replies : List StatusMsg) (addr : Nat) : List Event × OpResult :=
  let r := expect_state replies [DfuState.dfuDnloadBusy] [DfuState.dfuDnloadIdle]
    "Failed to erase sector."
  (Event.usb (UsbRequest.dnload 0 (0x41 :: _address_to_4bytes addr)) :: r.1, r.2)

/-- `DfuDevice.unprotect`: download `READ_UNPROTECT (0x92)` to block 0,
then await DNBUSY → DNLOAD-IDLE. -/
def unprotect (replies : List StatusMsg) : List Event × OpResult :=
  let r := expect_state replies [DfuState.dfuDnloadBusy] [DfuState.dfuDnloadIdle]
    "Failed to unprotect."
  (Event.usb (UsbRequest.dnload 0 [0x92]) :: r.1, r.2)

/-- `DfuDevice.erase_sector`: require dfuIDLE/dfuDNLOAD-IDLE, then erase at
the sector's start address. -/
def erase_sector (replies : List StatusMsg) (sector : Sector) : List Event × OpResult :=
  match expect_state replies [] [DfuState.dfuIdle, DfuState.dfuDnloadIdle]
      "Cannot erase sector" with
  | (ev, OpResult.ok rest) =>
    let r := _erase rest sector.addr
    (ev ++ r.1, r.2)
  | (ev, other) => (ev, other)

/-- Transfer size used by `write_sector` and `read_sector`:
`math.gcd(sector['len'], self._max_transfer_size)`. -/
def transfer_size (sectorLen maxTransferSize : Nat) : Nat :=
  Nat.gcd sectorLen maxTransferSize

/-- Number of blocks moved per sector: `int(sector['len'] / transfer_size)`. -/
def num_blocks (sectorLen maxTransferSize : Nat) : Nat :=
  sectorLen / transfer_size sectorLen maxTransferSize

/-- The `for blocknum in range(...)` loop of `write_sector`: download block
`i` of the sector data as DFU block `i + 2` (`_write` adds 2), then await
DNBUSY → DNLOAD-IDLE. `count` is how many loop iterations remain. -/
def write_blocks (data : List Nat) (t : Nat) : Nat → Nat → List StatusMsg → List Event × OpResult
  | 0, _, replies => ([], OpResult.ok replies)
  | count + 1, i, replies =>
    let blockData := (data.drop (i * t)).take t
    let r := expect_state replies [DfuState.dfuDnloadBusy] [DfuState.dfuDnloadIdle]
      "Failed to write sector"
    let ev := Event.usb (UsbRequest.dnload (i + 2) blockData) :: r.1
    match r.2 with
    | OpResult.ok rest =>
      let r2 := write_blocks data t count (i + 1) rest
      (ev ++ r2.1, r2.2)
    | other => (ev, other)

/-- `DfuDevice.write_sector`: require dfuIDLE/dfuDNLOAD-IDLE (twice: once via
`_expect_state`, once via a direct `_get_status` check), set the address
pointer, then download the sector data in `num_blocks` blocks of
`transfer_size` bytes. -/
def write_sector (replies : List StatusMsg) (sector : Sector) (data : List Nat)
    (maxTransferSize : Nat) : List Event × OpResult :=
  match expect_state replies [] [DfuState.dfuIdle, DfuState.dfuDnloadIdle]
      "Cannot write sector" with
  | (ev0, OpResult.ok rest) =>
    match rest with
    | [] => (ev0 ++ [Event.usb UsbRequest.getStatus], OpResult.outOfReplies)
    | m :: rest2 =>
      match get_status_one m with
      | (ev1, GsOut.exn s) => (ev0 ++ ev1, OpResult.exn s)
      | (ev1, GsOut.ok status state text) =>
        if state ∈ [DfuState.dfuIdle, DfuState.dfuDnloadIdle] then
          match _set_address rest2 sector.addr with
          | (ev2, OpResult.ok rest3) =>
            let t := transfer_size sector.len maxTransferSize
            let r := write_blocks data t (sector.len / t) 0 rest3
            (ev0 ++ ev1 ++ ev2 ++ r.1, r.2)
          | (ev2, other) => (ev0 ++ ev1 ++ ev2, other)
        else (ev0 ++ ev1, OpResult.dfuErr "Cannot write sector." status state text)
  | (ev0, other) => (ev0, other)

/-- `DfuDevice.read_sector`: require dfuIDLE/dfuDNLOAD-IDLE, set the address
pointer, abort, upload the sector in blocks (`_read` adds 2 to the block
number), abort again.  Uploads do not poll GETSTATUS. -/
def read_sector (replies : List StatusMsg) (sector : Sector)
    (maxTransferSize : Nat) : List Event × OpResult :=
  match expect_state replies [] [DfuState.dfuIdle, DfuState.dfuDnloadIdle]
      "Cannot read sector." with
  | (ev0, OpResult.ok rest) =>
    match _set_address rest sector.addr with
    | (ev1, OpResult.ok rest2) =>
      let t := transfer_size sector.len maxTransferSize
      let uploads := (List.range (sector.len / t)).map
        (fun i => Event.usb (UsbRequest.upload (i + 2) t))
      (ev0 ++ ev1 ++ [Event.usb UsbRequest.abort] ++ uploads
        ++ [Event.usb UsbRequest.abort], OpResult.ok rest2)
    | (ev1, other) => (ev0 ++ ev1, other)
  | (ev0, other) => (ev0, other)

/-- The erase loop of `write_firmware`: `device.erase_sector(sector)` for
each sector of the list, in order, stopping at the first failure. -/
def run_erases : List Sector → List StatusMsg → List Event × OpResult
  | [], replies => ([], OpResult.ok replies)
  | s :: ss, replies =>
    match erase_sector replies s with
    | (ev, OpResult.ok rest) =>
      let r := run_erases ss rest
      (ev ++ r.1, r.2)
    | (ev, other) => (ev, other)

/-- The sector list erased by the erase stage of `write_firmware`:
the whole `Internal Flash` region when `erase_all`, else the planned
(touched) sectors: `[s for s, d in touched_sectors]`. -/
def erase_stage_sectors (erase_all : Bool) (internal_flash_sectors : List Sector)
    (touched_sectors : List (Sector × List Nat)) : List Sector :=
  if erase_all then internal_flash_sectors
  else touched_sectors.map (fun sd => sd.1)

/-- The erase stage of `write_firmware` as a trace. -/
def erase_stage (erase_all : Bool) (internal_flash_sectors : List Sector)
    (touched_sectors : List (Sector × List Nat)) (replies : List StatusMsg) :
    List Event × OpResult :=
  run_erases (erase_stage_sectors erase_all internal_flash_sectors touched_sectors) replies

/-- The payloads of the ERASE vendor commands (`0x41` downloads to block 0)
appearing in a trace, in order; each payload is the 4 address bytes. -/
def erase_payloads : List Event → List (List Nat)
  | [] => []
  | Event.usb (UsbRequest.dnload 0 (b :: bs)) :: rest =>
    if b = 0x41 then bs :: erase_payloads rest else erase_payloads rest
  | _ :: rest => erase_payloads rest

/-- The block numbers of all DNLOAD requests in a trace, in order. -/
def dnload_blocks : List Event → List Nat
  | [] => []
  | Event.usb (UsbRequest.dnload b _) :: rest => b :: dnload_blocks rest
  | _ :: rest => dnload_blocks rest

/-- The block numbers of all UPLOAD requests in a trace, in order. -/
def upload_blocks : List Event → List Nat
  | [] => []
  | Event.usb (UsbRequest.upload b _) :: rest => b :: upload_blocks rest
  | _ :: rest => upload_blocks rest

/-- The `(blockNum, payload)` pairs of the data DNLOADs (block number ≥ 2)
in a trace, in order.  Block 0 carries vendor commands and is excluded. -/
def data_dnloads : List Event → List (Nat × List Nat)
  | [] => []
  | Event.usb (UsbRequest.dnload b d) :: rest =>
    if 2 ≤ b then (b, d) :: data_dnloads rest else data_dnloads rest
  | _ :: rest => data_dnloads rest

/-- A flash section as consumed by `_populate_sectors`: the
`(name, addr, content)` tuples yielded by `get_flash_sections`. -/
structure FlashSec where
  name : String
  addr : Nat
  content : List Nat
  deriving DecidableEq, Repr

/-- The body of the inner `for section_name, section_addr, section_content
in sections` loop of `_populate_sectors`: skip sections entirely before or
after the sector, crop the section to the sector, splice its bytes into the
running buffer, and mark the sector touched. -/
def populate_step (sector_addr : Nat) (st : List Nat × Bool) (sec : FlashSec) :
    List Nat × Bool :=
  let content := st.1
  if sec.addr + sec.content.length ≤ sector_addr then st
  else if sector_addr + content.length ≤ sec.addr then st
  else
    let scontent := if sec.addr < sector_addr
      then sec.content.drop (sector_addr - sec.addr) else sec.content
    let saddr := if sec.addr < sector_addr then sector_addr else sec.addr
    let scontent := if sector_addr + content.length < saddr + scontent.length
      then scontent.take (sector_addr + content.length - saddr) else scontent
    let off := saddr - sector_addr
    (content.take off ++ scontent ++ content.drop (off + scontent.length), true)

/-- `_populate_sectors` in `legacy_dfu.py`: for each sector, seed a buffer
of the sector's length with `0xFF`, overlay every overlapping section's
cropped bytes in order, and yield `(sector, buffer)` if any section touched
the sector. -/
def _populate_sectors (sectors : List Sector) (sections : List FlashSec) :
    List (Sector × List Nat) :=
  sectors.filterMap (fun sector =>
    let r := sections.foldl (populate_step sector.addr)
      (List.replicate sector.len 0xff, false)
    if r.2 then some (sector, r.1) else none)

/-- Whether address `p` lies in the half-open address range of section
`sec`, i.e. `sec.addr ≤ p < sec.addr + |sec.content|`. -/
def covers (p : Nat) (sec : FlashSec) : Bool :=
  decide (sec.addr ≤ p ∧ p < sec.addr + sec.content.length)

/-- The byte that the plan should place at absolute address `p`: the
address-cropped byte of the last section covering `p`, or the erase value
`0xFF` if no section covers `p`. -/
def byte_at (sections : List FlashSec) (p : Nat) : Nat :=
  sections.foldl
    (fun acc sec => if covers p sec then sec.content.getD (p - sec.addr) 0 else acc)
    0xff

/-- Whether the half-open ranges `[a₁, a₁+l₁)` and `[a₂, a₂+l₂)` have a
common element. -/
def ranges_intersect (a₁ l₁ a₂ l₂ : Nat) : Bool :=
  decide (max a₁ a₂ < min (a₁ + l₁) (a₂ + l₂))

/-- `_get_first_mismatch_index`'s scan loop: the position of the first
index (counting from `pos`) where the two lists differ. -/
def first_mismatch_from : List Nat → List Nat → Nat → Option Nat
  | x :: xs, y :: ys, pos =>
    if x ≠ y then some pos else first_mismatch_from xs ys (pos + 1)
  | _, _, _ => none

/-- `_get_first_mismatch_index` in `legacy_dfu.py`: raise when the lengths
differ, else return the first differing index, or `none` when equal. -/
def _get_first_mismatch_index (array1 array2 : List Nat) :
    Except String (Option Nat) :=
  if array1.length ≠ array2.length then Except.error "arrays must be same size"
  else Except.ok (first_mismatch_from array1 array2 0)

/-- Verification failure report: the 16-byte-aligned absolute address of
the mismatch and the expected/observed 16-byte windows shown in hex by
`write_firmware`. -/
structure VerifyFailure where
  address : Nat
  expectedWindow : List Nat
  observedWindow : List Nat
  deriving DecidableEq, Repr

/-- The verify stage of `write_firmware` for one sector: compare the
observed (re-read) bytes against the planned buffer; on a mismatch at
index `i`, align down to `i - i % 16` and report the address and both
16-byte windows at that offset. -/
def verify_sector (sectorAddr : Nat) (observed expected : List Nat) :
    Except String (Option VerifyFailure) :=
  match _get_first_mismatch_index observed expected with
  | Except.error e => Except.error e
  | Except.ok none => Except.ok none
  | Except.ok (some i) =>
    let pos := i - i % 16
    Except.ok (some
      { address := sectorAddr + pos
        expectedWindow := (expected.drop pos).take 16
        observedWindow := (observed.drop pos).take 16 })

end Dfu

namespace Firmware

/-- The program-header fields of an ELF segment consumed by
`get_flash_sections`. -/
structure ElfSegment where
  p_type : String
  p_vaddr : Int
  p_paddr : Int
  p_filesz : Int
  deriving DecidableEq, Repr

/-- The section-header fields and raw bytes of an ELF section consumed by
`get_flash_sections`; `data` is what `section.data()` returns. -/
structure ElfSection where
  name : String
  sh_addr : Int
  sh_size : Int
  data : List Nat
  deriving DecidableEq, Repr

/-- The per-(segment, section) body of `get_flash_sections`: translate the
section's virtual address into the segment's physical base, prune the
address/size to the segment's on-disk range, skip empty results, and yield
`(name, addr, section.data())`. -/
def flash_section_of (seg : ElfSegment) (sec : ElfSection) :
    Option (String × Int × List Nat) :=
  let section_addr := sec.sh_addr - seg.p_vaddr + seg.p_paddr
  let section_size := sec.sh_size
  let section_size := if section_addr < seg.p_paddr
    then section_size - (seg.p_paddr - section_addr) else section_size
  let section_addr := if section_addr < seg.p_paddr then seg.p_paddr else section_addr
  let section_size := if section_addr + section_size > seg.p_paddr + seg.p_filesz
    then seg.p_paddr + seg.p_filesz - section_addr else section_size
  if section_size ≤ 0 then none
  else some (sec.name, section_addr, sec.data)

/-- `FirmwareFile.get_flash_sections` in `firmware.py`: for every `PT_LOAD`
segment and every section contained in it (per `section_in_segment`, a
pyelftools predicate taken as a parameter), yield the translated, pruned
section.  Sections whose pruned size is not positive are dropped. -/
def get_flash_sections (segments : List ElfSegment) (sections : List ElfSection)
    (section_in_segment : ElfSegment → ElfSection → Bool) :
    List (String × Int × List Nat) :=
  (segments.filter (fun seg => seg.p_type = "PT_LOAD")).flatMap (fun seg =>
    sections.filterMap (fun sec =>
      if section_in_segment seg sec then flash_section_of seg sec else none))

/-- Effective size of a section after clipping its translated address range
to the segment's on-disk range `[p_paddr, p_paddr + p_filesz)`. -/
def effective_size (seg : ElfSegment) (sec : ElfSection) : Int :=
  min (sec.sh_addr - seg.p_vaddr + seg.p_paddr + sec.sh_size) (seg.p_paddr + seg.p_filesz)
    - max (sec.sh_addr - seg.p_vaddr + seg.p_paddr) seg.p_paddr

/-- Modelled from the spec: the claim's reading of `get_flash_sections`, in
which each yielded buffer consists of exactly the clipped effective-size
bytes of the section (the bytes of `data` that fall inside the segment's
on-disk range), rather than the section's full `data()`. -/
def flash_sections_clipped (segments : List ElfSegment) (sections : List ElfSection)
    (section_in_segment : ElfSegment → ElfSection → Bool) :
    List (String × Int × List Nat) :=
  (segments.filter (fun seg => seg.p_type = "PT_LOAD")).flatMap (fun seg =>
    sections.filterMap (fun sec =>
      if section_in_segment seg sec ∧ 0 < effective_size seg sec then
        let tstart := sec.sh_addr - seg.p_vaddr + seg.p_paddr
        let start := max tstart seg.p_paddr
        some (sec.name, start,
          ((sec.data.drop (start - tstart).toNat).take (effective_size seg sec).toNat))
      else none))

/-- The amended description of `get_flash_sections`: one entry per
contained section of a `PT_LOAD` segment with positive effective size,
whose address is the translated virtual address clamped up to the segment's
physical base, and whose buffer is the section's full `data()`. -/
def flash_sections_amended (segments : List ElfSegment) (sections : List ElfSection)
    (section_in_segment : ElfSegment → ElfSection → Bool) :
    List (String × Int × List Nat) :=
  (segments.filter (fun seg => seg.p_type = "PT_LOAD")).flatMap (fun seg =>
    sections.filterMap (fun sec =>
      if section_in_segment seg sec ∧ 0 < effective_size seg sec then
        some (sec.name, max (sec.sh_addr - seg.p_vaddr + seg.p_paddr) seg.p_paddr,
          sec.data)
      else none))

end Firmware

namespace Dfu

/-! ### Helper lemmas about protocol traces -/

/-- A status-polling loop emits only GETSTATUS requests and sleeps. -/
theorem expect_state_events (replies : List StatusMsg) (busy target : List DfuState)
    (et : String) :
    ∀ e ∈ (expect_state replies busy target et).1,
      e = Event.usb UsbRequest.getStatus ∨ ∃ ms, e = Event.sleepMs ms := by
  induction replies with
  | nil =>
    intro e he
    simp only [expect_state, List.mem_singleton] at he
    exact Or.inl he
  | cons m rest ih =>
    intro e he
    simp only [expect_state, get_status_one] at he
    by_cases hp : 10000 < pollTimeoutMs m
    · simp only [if_pos hp, List.mem_singleton] at he
      exact Or.inl he
    · simp only [if_neg hp] at he
      by_cases ht : m.state ∈ target
      · simp only [if_pos ht, List.mem_cons, List.not_mem_nil, or_false] at he
        rcases he with h | h
        · exact Or.inl h
        · exact Or.inr ⟨_, h⟩
      · simp only [if_neg ht] at he
        by_cases hb : m.state ∈ busy
        · simp only [if_pos hb, List.cons_append, List.singleton_append,
            List.mem_cons] at he
          rcases he with h | h | h
          · exact Or.inl h
          · exact Or.inr ⟨_, h⟩
          · exact ih e h
        · simp only [if_neg hb, List.mem_cons, List.not_mem_nil, or_false] at he
          rcases he with h | h
          · exact Or.inl h
          · exact Or.inr ⟨_, h⟩

theorem dnload_blocks_append (a b : List Event) :
    dnload_blocks (a ++ b) = dnload_blocks a ++ dnload_blocks b := by
  induction a with
  | nil => rfl
  | cons e rest ih =>
    cases e with
    | usb r =>
      cases r <;> simp only [List.cons_append, dnload_blocks, List.append_eq, ih]
    | sleepMs ms => simp only [List.cons_append, dnload_blocks, List.append_eq, ih]

theorem upload_blocks_append (a b : List Event) :
    upload_blocks (a ++ b) = upload_blocks a ++ upload_blocks b := by
  induction a with
  | nil => rfl
  | cons e rest ih =>
    cases e with
    | usb r =>
      cases r <;> simp only [List.cons_append, upload_blocks, List.append_eq, ih]
    | sleepMs ms => simp only [List.cons_append, upload_blocks, List.append_eq, ih]

theorem data_dnloads_append (a b : List Event) :
    data_dnloads (a ++ b) = data_dnloads a ++ data_dnloads b := by
  induction a with
  | nil => rfl
  | cons e rest ih =>
    cases e with
    | usb r =>
      cases r with
      | dnload n d =>
        simp only [List.cons_append, data_dnloads, List.append_eq, ih]
        split <;> rfl
      | _ => simp only [List.cons_append, data_dnloads, List.append_eq, ih]
    | sleepMs ms => simp only [List.cons_append, data_dnloads, List.append_eq, ih]

theorem erase_payloads_append (a b : List Event) :
    erase_payloads (a ++ b) = erase_payloads a ++ erase_payloads b := by
  induction a with
  | nil => rfl
  | cons e rest ih =>
    cases e with
    | usb r =>
      cases r with
      | dnload n d =>
        match n, d with
        | 0, [] => simp only [List.cons_append, erase_payloads, List.append_eq, ih]
        | 0, b' :: bs =>
          simp only [List.cons_append, erase_payloads, List.append_eq, ih]
          split <;> rfl
        | n + 1, d => simp only [List.cons_append, erase_payloads, List.append_eq, ih]
      | _ => simp only [List.cons_append, erase_payloads, List.append_eq, ih]
    | sleepMs ms => simp only [List.cons_append, erase_payloads, List.append_eq, ih]

/-- A trace consisting of GETSTATUS requests and sleeps has no DNLOADs. -/
theorem dnload_blocks_nil (evs : List Event)
    (h : ∀ e ∈ evs, e = Event.usb UsbRequest.getStatus ∨ ∃ ms, e = Event.sleepMs ms) :
    dnload_blocks evs = [] := by
  induction evs with
  | nil => rfl
  | cons e rest ih =>
    rcases h e (by simp) with h' | ⟨ms, h'⟩ <;>
      subst h' <;> exact ih (fun e he => h e (by simp [he]))

theorem upload_blocks_nil (evs : List Event)
    (h : ∀ e ∈ evs, e = Event.usb UsbRequest.getStatus ∨ ∃ ms, e = Event.sleepMs ms) :
    upload_blocks evs = [] := by
  induction evs with
  | nil => rfl
  | cons e rest ih =>
    rcases h e (by simp) with h' | ⟨ms, h'⟩ <;>
      subst h' <;> exact ih (fun e he => h e (by simp [he]))

theorem data_dnloads_nil (evs : List Event)
    (h : ∀ e ∈ evs, e = Event.usb UsbRequest.getStatus ∨ ∃ ms, e = Event.sleepMs ms) :
    data_dnloads evs = [] := by
  induction evs with
  | nil => rfl
  | cons e rest ih =>
    rcases h e (by simp) with h' | ⟨ms, h'⟩ <;>
      subst h' <;> exact ih (fun e he => h e (by simp [he]))

theorem erase_payloads_nil (evs : List Event)
    (h : ∀ e ∈ evs, e = Event.usb UsbRequest.getStatus ∨ ∃ ms, e = Event.sleepMs ms) :
    erase_payloads evs = [] := by
  induction evs with
  | nil => rfl
  | cons e rest ih =>
    rcases h e (by simp) with h' | ⟨ms, h'⟩ <;>
      subst h' <;> exact ih (fun e he => h e (by simp [he]))

/-! ### C8 — vendor command payloads -/

/-- Auxiliary: decoding the little-endian 4-byte encoding of `a` yields
`a mod 2^32`. -/
theorem leValue_address_to_4bytes (a : Nat) :
    leValue (_address_to_4bytes a) = a % 2 ^ 32 := by
  simp only [_address_to_4bytes, leValue, Nat.shiftRight_eq_div_pow]
  omega

/-- C8: the erase operation downloads, to block number 0, the erase opcode
`0x41` followed by the 4-byte little-endian encoding of the address
(`[a % 256, (a >> 8) % 256, (a >> 16) % 256, (a >> 24) % 256]`, whose
little-endian value is `a mod 2^32`); the set-address operation sends the
same shape of payload with opcode `0x21`. -/
theorem erase_and_set_address_payloads (a : Nat) (replies : List StatusMsg) :
    (_erase replies a).1.head?
      = some (Event.usb (UsbRequest.dnload 0 (0x41 :: _address_to_4bytes a)))
    ∧ (_set_address replies a).1.head?
      = some (Event.usb (UsbRequest.dnload 0 (0x21 :: _address_to_4bytes a)))
    ∧ _address_to_4bytes a
      = [a % 256, (a >>> 8) % 256, (a >>> 16) % 256, (a >>> 24) % 256]
    ∧ leValue (_address_to_4bytes a) = a % 2 ^ 32 :=
  ⟨rfl, rfl, rfl, leValue_address_to_4bytes a⟩

/-! ### C6 — poll-interval handling in the status poll -/

/-- C6: the poll interval is the 24-bit little-endian value of reply bytes
1..3; when it exceeds 10000 ms the status poll raises (the spec's
`ProtocolError` category: "unreasonable poll timeout") without sleeping,
and the polling loop fails immediately without consuming further replies;
when it is at most 10000 ms the poll sleeps exactly that interval and
returns the reported `(status, state, text)`. -/
theorem get_status_unreasonable_timeout (m : StatusMsg) (rest : List StatusMsg)
    (busy target : List DfuState) (et : String) :
    pollTimeoutMs m = m.b1 + 2 ^ 8 * m.b2 + 2 ^ 16 * m.b3
    ∧ (10000 < pollTimeoutMs m →
        get_status_one m = ([Event.usb UsbRequest.getStatus],
          GsOut.exn "Device requested an unreasonable timeout")
        ∧ expect_state (m :: rest) busy target et
            = ([Event.usb UsbRequest.getStatus],
               OpResult.exn "Device requested an unreasonable timeout")
        ∧ ∀ ms, Event.sleepMs ms ∉ (expect_state (m :: rest) busy target et).1)
    ∧ (pollTimeoutMs m ≤ 10000 →
        get_status_one m
          = ([Event.usb UsbRequest.getStatus, Event.sleepMs (pollTimeoutMs m)],
             GsOut.ok m.status m.state m.text)) := by
  refine ⟨by simp only [pollTimeoutMs]; ring, fun h => ?_, fun h => ?_⟩
  · have hgs : get_status_one m = ([Event.usb UsbRequest.getStatus],
        GsOut.exn "Device requested an unreasonable timeout") := by
      simp only [get_status_one, if_pos h]
    have hes : expect_state (m :: rest) busy target et
        = ([Event.usb UsbRequest.getStatus],
           OpResult.exn "Device requested an unreasonable timeout") := by
      simp only [expect_state, hgs]
    refine ⟨hgs, hes, fun ms hmem => ?_⟩
    rw [hes] at hmem
    simp at hmem
  · simp only [get_status_one, if_neg (by omega : ¬ 10000 < pollTimeoutMs m)]

/-- C6 witness. -/
theorem get_status_unreasonable_timeout_witness :
    get_status_one ⟨DfuStatus.ok, 0x11, 0x27, 0, DfuState.dfuDnloadBusy, "busy"⟩
      = ([Event.usb UsbRequest.getStatus],
         GsOut.exn "Device requested an unreasonable timeout")
    ∧ get_status_one ⟨DfuStatus.ok, 0x10, 0x27, 0, DfuState.dfuDnloadBusy, "busy"⟩
      = ([Event.usb UsbRequest.getStatus, Event.sleepMs 10000],
         GsOut.ok DfuStatus.ok DfuState.dfuDnloadBusy "busy") := by
  constructor
  · exact ((get_status_unreasonable_timeout
      ⟨DfuStatus.ok, 0x11, 0x27, 0, DfuState.dfuDnloadBusy, "busy"⟩ [] [] [] "e").2.1
      (by decide)).1
  · exact (get_status_unreasonable_timeout
      ⟨DfuStatus.ok, 0x10, 0x27, 0, DfuState.dfuDnloadBusy, "busy"⟩ [] [] [] "e").2.2
      (by decide)

/-! ### C5 — state gating in the polling loop -/

/-- C5: when a get-status reply reports a state outside the busy and target
sets, the polling loop raises `DfuError` carrying the reported status,
state and text; while the state is in the busy set the loop continues with
the same final outcome; and invoking `erase_sector` while the device
reports dfuERROR fails with that `DfuError` without ever issuing a
clear-status request. -/
theorem expect_state_gate (m : StatusMsg) (rest : List StatusMsg)
    (busy target : List DfuState) (et : String) (sector : Sector) :
    (pollTimeoutMs m ≤ 10000 → m.state ∉ target → m.state ∉ busy →
      expect_state (m :: rest) busy target et
        = ([Event.usb UsbRequest.getStatus, Event.sleepMs (pollTimeoutMs m)],
           OpResult.dfuErr et m.status m.state m.text))
    ∧ (pollTimeoutMs m ≤ 10000 → m.state ∉ target → m.state ∈ busy →
      (expect_state (m :: rest) busy target et).2
        = (expect_state rest busy target et).2)
    ∧ (pollTimeoutMs m ≤ 10000 → m.state = DfuState.dfuError →
      (erase_sector (m :: rest) sector).2
        = OpResult.dfuErr "Cannot erase sector" m.status m.state m.text
      ∧ Event.usb UsbRequest.clrStatus ∉ (erase_sector (m :: rest) sector).1) := by
  have hgs : pollTimeoutMs m ≤ 10000 → get_status_one m
      = ([Event.usb UsbRequest.getStatus, Event.sleepMs (pollTimeoutMs m)],
         GsOut.ok m.status m.state m.text) := by
    intro h
    simp only [get_status_one, if_neg (by omega : ¬ 10000 < pollTimeoutMs m)]
  refine ⟨fun hp ht hb => ?_, fun hp ht hb => ?_, fun hp hs => ?_⟩
  · simp only [expect_state, hgs hp, if_neg ht, if_neg hb]
  · simp only [expect_state, hgs hp, if_neg ht, if_pos hb]
  · have hgate : expect_state (m :: rest) []
        [DfuState.dfuIdle, DfuState.dfuDnloadIdle] "Cannot erase sector"
        = ([Event.usb UsbRequest.getStatus, Event.sleepMs (pollTimeoutMs m)],
           OpResult.dfuErr "Cannot erase sector" m.status m.state m.text) := by
      simp only [expect_state, hgs hp]
      rw [if_neg (by simp [hs]), if_neg (by simp)]
    constructor
    · simp only [erase_sector, hgate]
    · simp only [erase_sector, hgate]
      simp

/-- C5 witness: a device stuck in dfuERROR with status `errTarget` makes
`erase_sector` fail with the reported status/state/text and issue no
clear-status request. -/
theorem expect_state_gate_witness :
    (erase_sector [⟨DfuStatus.errTarget, 0, 0, 0, DfuState.dfuError, "E"⟩]
        { addr := 8, len := 4 }).2
      = OpResult.dfuErr "Cannot erase sector" DfuStatus.errTarget DfuState.dfuError "E"
    ∧ Event.usb UsbRequest.clrStatus ∉
        (erase_sector [⟨DfuStatus.errTarget, 0, 0, 0, DfuState.dfuError, "E"⟩]
          { addr := 8, len := 4 }).1 :=
  (expect_state_gate ⟨DfuStatus.errTarget, 0, 0, 0, DfuState.dfuError, "E"⟩ [] [] [] "e"
    { addr := 8, len := 4 }).2.2 (by decide) rfl

/-! ### Trace lemmas for the sector write/read paths -/

/-- A single `_get_status` call emits only a GETSTATUS request and a sleep. -/
theorem get_status_one_events (m : StatusMsg) :
    ∀ e ∈ (get_status_one m).1,
      e = Event.usb UsbRequest.getStatus ∨ ∃ ms, e = Event.sleepMs ms := by
  intro e he
  simp only [get_status_one] at he
  split at he <;> simp only [List.mem_cons, List.not_mem_nil, or_false] at he
  · exact Or.inl he
  · rcases he with h | h
    · exact Or.inl h
    · exact Or.inr ⟨_, h⟩

/-- The block-download loop of `write_sector`: every DNLOAD it emits has
block number ≥ 2, it emits no uploads, and on success its data DNLOADs are
exactly the consecutive blocks `i+2, i+3, ...` carrying the corresponding
`transfer_size`-sized slices of the data. -/
theorem write_blocks_trace (data : List Nat) (t : Nat) :
    ∀ count i replies,
      (∀ b ∈ dnload_blocks (write_blocks data t count i replies).1, 2 ≤ b)
      ∧ upload_blocks (write_blocks data t count i replies).1 = []
      ∧ (∀ rest, (write_blocks data t count i replies).2 = OpResult.ok rest →
          data_dnloads (write_blocks data t count i replies).1
            = (List.range' i count).map
                (fun k => (k + 2, (data.drop (k * t)).take t))) := by
  intro count
  induction count with
  | zero =>
    intro i replies
    refine ⟨by simp [write_blocks, dnload_blocks], by simp [write_blocks, upload_blocks],
      fun rest _ => by simp [write_blocks, data_dnloads]⟩
  | succ n ih =>
    intro i replies
    have hev := expect_state_events replies [DfuState.dfuDnloadBusy]
      [DfuState.dfuDnloadIdle] "Failed to write sector"
    have hdn := dnload_blocks_nil _ hev
    have hup := upload_blocks_nil _ hev
    have hdd := data_dnloads_nil _ hev
    simp only [write_blocks]
    cases hres : (expect_state replies [DfuState.dfuDnloadBusy]
        [DfuState.dfuDnloadIdle] "Failed to write sector").2 with
    | ok rest' =>
      obtain ⟨ih1, ih2, ih3⟩ := ih (i + 1) rest'
      refine ⟨?_, ?_, ?_⟩
      · intro b hb
        simp only [hres, List.cons_append, List.append_eq, dnload_blocks,
          dnload_blocks_append, hdn, List.nil_append, List.mem_cons] at hb
        rcases hb with h | h
        · omega
        · exact ih1 b h
      · simp only [hres, List.cons_append, List.append_eq, upload_blocks,
          upload_blocks_append, hup, List.nil_append, ih2]
      · intro rest hrest
        simp only [hres] at hrest ⊢
        simp only [List.cons_append, List.append_eq, data_dnloads,
          if_pos (by omega : 2 ≤ i + 2), data_dnloads_append, hdd, List.nil_append,
          ih3 rest hrest, List.range'_succ i n 1, List.map_cons]
    | dfuErr msg status state text =>
      refine ⟨?_, ?_, ?_⟩
      · intro b hb
        simp [hres, dnload_blocks, hdn] at hb
        omega
      · simp [hres, upload_blocks, hup]
      · intro rest hrest
        simp [hres] at hrest
    | exn msg =>
      refine ⟨?_, ?_, ?_⟩
      · intro b hb
        simp [hres, dnload_blocks, hdn] at hb
        omega
      · simp [hres, upload_blocks, hup]
      · intro rest hrest
        simp [hres] at hrest
    | outOfReplies =>
      refine ⟨?_, ?_, ?_⟩
      · intro b hb
        simp [hres, dnload_blocks, hdn] at hb
        omega
      · simp [hres, upload_blocks, hup]
      · intro rest hrest
        simp [hres] at hrest

/-- `_set_address` performs exactly one DNLOAD, to block 0, and no data
DNLOADs, uploads or erase commands. -/
theorem set_address_trace (replies : List StatusMsg) (addr : Nat) :
    dnload_blocks (_set_address replies addr).1 = [0]
    ∧ data_dnloads (_set_address replies addr).1 = []
    ∧ upload_blocks (_set_address replies addr).1 = []
    ∧ erase_payloads (_set_address replies addr).1 = [] := by
  have hev := expect_state_events replies [DfuState.dfuDnloadBusy]
    [DfuState.dfuDnloadIdle] "Failed to set address."
  refine ⟨?_, ?_, ?_, ?_⟩ <;>
    simp [_set_address, dnload_blocks, data_dnloads, upload_blocks, erase_payloads,
      dnload_blocks_nil _ hev, data_dnloads_nil _ hev, upload_blocks_nil _ hev,
      erase_payloads_nil _ hev]

/-- `_erase` performs exactly one DNLOAD, to block 0, whose payload is the
erase opcode followed by the encoded address. -/
theorem erase_cmd_trace (replies : List StatusMsg) (addr : Nat) :
    dnload_blocks (_erase replies addr).1 = [0]
    ∧ erase_payloads (_erase replies addr).1 = [_address_to_4bytes addr]
    ∧ data_dnloads (_erase replies addr).1 = []
    ∧ upload_blocks (_erase replies addr).1 = [] := by
  have hev := expect_state_events replies [DfuState.dfuDnloadBusy]
    [DfuState.dfuDnloadIdle] "Failed to erase sector."
  refine ⟨?_, ?_, ?_, ?_⟩ <;>
    simp [_erase, dnload_blocks, data_dnloads, upload_blocks, erase_payloads,
      dnload_blocks_nil _ hev, data_dnloads_nil _ hev, upload_blocks_nil _ hev,
      erase_payloads_nil _ hev]

/-- `unprotect` performs exactly one DNLOAD, to block 0. -/
theorem unprotect_trace (replies : List StatusMsg) :
    dnload_blocks (unprotect replies).1 = [0] := by
  have hev := expect_state_events replies [DfuState.dfuDnloadBusy]
    [DfuState.dfuDnloadIdle] "Failed to unprotect."
  simp [unprotect, dnload_blocks, dnload_blocks_nil _ hev]

/-- Every DNLOAD issued by `write_sector` goes to block 0 (the vendor
command block used by set-address) or to a block ≥ 2; and on a successful
run the data DNLOADs are exactly blocks `2, 3, ...` carrying the
consecutive `transfer_size`-sized slices of the data. -/
theorem write_sector_trace (replies : List StatusMsg) (sector : Sector)
    (data : List Nat) (M : Nat) :
    (∀ b ∈ dnload_blocks (write_sector replies sector data M).1, b = 0 ∨ 2 ≤ b)
    ∧ ∀ rest, (write_sector replies sector data M).2 = OpResult.ok rest →
        data_dnloads (write_sector replies sector data M).1
          = (List.range' 0 (num_blocks sector.len M)).map
              (fun k => (k + 2,
                (data.drop (k * transfer_size sector.len M)).take
                  (transfer_size sector.len M))) := by
  have hev0 := expect_state_events replies []
    [DfuState.dfuIdle, DfuState.dfuDnloadIdle] "Cannot write sector"
  have hdn0 := dnload_blocks_nil _ hev0
  have hdd0 := data_dnloads_nil _ hev0
  rcases hE : expect_state replies [] [DfuState.dfuIdle, DfuState.dfuDnloadIdle]
      "Cannot write sector" with ⟨ev0, r0⟩
  rw [hE] at hdn0 hdd0
  cases r0 with
  | ok rest1 =>
    cases rest1 with
    | nil =>
      refine ⟨?_, ?_⟩
      · intro b hb
        simp [write_sector, hE, dnload_blocks_append, hdn0, dnload_blocks] at hb
      · intro rest hrest
        simp [write_sector, hE] at hrest
    | cons m rest2 =>
      have hev1 := get_status_one_events m
      have hdn1 := dnload_blocks_nil _ hev1
      have hdd1 := data_dnloads_nil _ hev1
      rcases hG : get_status_one m with ⟨ev1, g⟩
      rw [hG] at hdn1 hdd1
      cases g with
      | exn s =>
        refine ⟨?_, ?_⟩
        · intro b hb
          simp [write_sector, hE, hG, dnload_blocks_append, hdn0, hdn1] at hb
        · intro rest hrest
          simp [write_sector, hE, hG] at hrest
      | ok status state text =>
        by_cases hst : state ∈ [DfuState.dfuIdle, DfuState.dfuDnloadIdle]
        · rcases hS : _set_address rest2 sector.addr with ⟨ev2, r2⟩
          have hS1 := (set_address_trace rest2 sector.addr).1
          have hS2 := (set_address_trace rest2 sector.addr).2.1
          rw [hS] at hS1 hS2
          cases r2 with
          | ok rest3 =>
            obtain ⟨hwb1, hwb2, hwb3⟩ := write_blocks_trace data
              (transfer_size sector.len M)
              (sector.len / transfer_size sector.len M) 0 rest3
            refine ⟨?_, ?_⟩
            · intro b hb
              simp [write_sector, hE, hG, hst, hS, dnload_blocks_append,
                hdn0, hdn1, hS1, transfer_size] at hb
              rcases hb with h | h
              · exact Or.inl h
              · exact Or.inr (hwb1 b (by simpa [transfer_size] using h))
            · intro rest hrest
              simp only [write_sector, hE, hG, if_pos hst, hS] at hrest ⊢
              simp only [data_dnloads_append, hdd0, hdd1, hS2, List.nil_append]
              exact hwb3 rest hrest
          | dfuErr a b c d =>
            refine ⟨?_, ?_⟩
            · intro b hb
              simp [write_sector, hE, hG, hst, hS, dnload_blocks_append,
                hdn0, hdn1, hS1] at hb
              exact Or.inl hb
            · intro rest hrest
              simp [write_sector, hE, hG, hst, hS] at hrest
          | exn s =>
            refine ⟨?_, ?_⟩
            · intro b hb
              simp [write_sector, hE, hG, hst, hS, dnload_blocks_append,
                hdn0, hdn1, hS1] at hb
              exact Or.inl hb
            · intro rest hrest
              simp [write_sector, hE, hG, hst, hS] at hrest
          | outOfReplies =>
            refine ⟨?_, ?_⟩
            · intro b hb
              simp [write_sector, hE, hG, hst, hS, dnload_blocks_append,
                hdn0, hdn1, hS1] at hb
              exact Or.inl hb
            · intro rest hrest
              simp [write_sector, hE, hG, hst, hS] at hrest
        · refine ⟨?_, ?_⟩
          · intro b hb
            simp [write_sector, hE, hG, hst, dnload_blocks_append, hdn0, hdn1] at hb
          · intro rest hrest
            simp [write_sector, hE, hG, hst] at hrest
  | dfuErr a b c d =>
    refine ⟨?_, ?_⟩
    · intro b hb
      simp [write_sector, hE, hdn0] at hb
    · intro rest hrest
      simp [write_sector, hE] at hrest
  | exn s =>
    refine ⟨?_, ?_⟩
    · intro b hb
      simp [write_sector, hE, hdn0] at hb
    · intro rest hrest
      simp [write_sector, hE] at hrest
  | outOfReplies =>
    refine ⟨?_, ?_⟩
    · intro b hb
      simp [write_sector, hE, hdn0] at hb
    · intro rest hrest
      simp [write_sector, hE] at hrest

theorem upload_blocks_map_upload (l : List Nat) (t : Nat) :
    upload_blocks (l.map (fun i => Event.usb (UsbRequest.upload (i + 2) t)))
      = l.map (fun i => i + 2) := by
  induction l with
  | nil => rfl
  | cons x xs ih => simp [upload_blocks, ih]

theorem dnload_blocks_map_upload (l : List Nat) (t : Nat) :
    dnload_blocks (l.map (fun i => Event.usb (UsbRequest.upload (i + 2) t))) = [] := by
  induction l with
  | nil => rfl
  | cons x xs ih => simp [dnload_blocks, ih]

/-- Every DNLOAD issued by `read_sector` goes to block 0 (set-address);
every UPLOAD it issues goes to a block ≥ 2; and on a successful run the
uploaded block numbers are exactly `2, 3, ...` for the sector's
`num_blocks` blocks. -/
theorem read_sector_trace (replies : List StatusMsg) (sector : Sector) (M : Nat) :
    (∀ b ∈ dnload_blocks (read_sector replies sector M).1, b = 0)
    ∧ (∀ b ∈ upload_blocks (read_sector replies sector M).1, 2 ≤ b)
    ∧ ∀ rest, (read_sector replies sector M).2 = OpResult.ok rest →
        upload_blocks (read_sector replies sector M).1
          = (List.range' 0 (num_blocks sector.len M)).map (fun i => i + 2) := by
  have hev0 := expect_state_events replies []
    [DfuState.dfuIdle, DfuState.dfuDnloadIdle] "Cannot read sector."
  have hdn0 := dnload_blocks_nil _ hev0
  have hup0 := upload_blocks_nil _ hev0
  rcases hE : expect_state replies [] [DfuState.dfuIdle, DfuState.dfuDnloadIdle]
      "Cannot read sector." with ⟨ev0, r0⟩
  rw [hE] at hdn0 hup0
  cases r0 with
  | ok rest1 =>
    rcases hS : _set_address rest1 sector.addr with ⟨ev1, r1⟩
    have hS1 := (set_address_trace rest1 sector.addr).1
    have hS3 := (set_address_trace rest1 sector.addr).2.2.1
    rw [hS] at hS1 hS3
    cases r1 with
    | ok rest2 =>
      refine ⟨?_, ?_, ?_⟩
      · intro b hb
        simp [read_sector, hE, hS, dnload_blocks_append, hdn0, hS1, dnload_blocks,
          dnload_blocks_map_upload] at hb
        exact hb
      · intro b hb
        simp only [read_sector, hE, hS] at hb
        simp [upload_blocks_append, hup0, hS3, upload_blocks,
          upload_blocks_map_upload] at hb
        obtain ⟨a, _, ha⟩ := hb
        omega
      · intro rest hrest
        simp [read_sector, hE, hS, upload_blocks_append, hup0, hS3, upload_blocks,
          upload_blocks_map_upload, num_blocks, List.range_eq_range']
    | dfuErr a b c d =>
      refine ⟨?_, ?_, ?_⟩
      · intro b hb
        simp [read_sector, hE, hS, dnload_blocks_append, hdn0, hS1] at hb
        exact hb
      · intro b hb
        simp [read_sector, hE, hS, upload_blocks_append, hup0, hS3] at hb
      · intro rest hrest
        simp [read_sector, hE, hS] at hrest
    | exn s =>
      refine ⟨?_, ?_, ?_⟩
      · intro b hb
        simp [read_sector, hE, hS, dnload_blocks_append, hdn0, hS1] at hb
        exact hb
      · intro b hb
        simp [read_sector, hE, hS, upload_blocks_append, hup0, hS3] at hb
      · intro rest hrest
        simp [read_sector, hE, hS] at hrest
    | outOfReplies =>
      refine ⟨?_, ?_, ?_⟩
      · intro b hb
        simp [read_sector, hE, hS, dnload_blocks_append, hdn0, hS1] at hb
        exact hb
      · intro b hb
        simp [read_sector, hE, hS, upload_blocks_append, hup0, hS3] at hb
      · intro rest hrest
        simp [read_sector, hE, hS] at hrest
  | dfuErr a b c d =>
    refine ⟨?_, ?_, ?_⟩
    · intro b hb
      simp [read_sector, hE, hdn0] at hb
    · intro b hb
      simp [read_sector, hE, hup0] at hb
    · intro rest hrest
      simp [read_sector, hE] at hrest
  | exn s =>
    refine ⟨?_, ?_, ?_⟩
    · intro b hb
      simp [read_sector, hE, hdn0] at hb
    · intro b hb
      simp [read_sector, hE, hup0] at hb
    · intro rest hrest
      simp [read_sector, hE] at hrest
  | outOfReplies =>
    refine ⟨?_, ?_, ?_⟩
    · intro b hb
      simp [read_sector, hE, hdn0] at hb
    · intro b hb
      simp [read_sector, hE, hup0] at hb
    · intro rest hrest
      simp [read_sector, hE] at hrest

/-- Every DNLOAD issued by `erase_sector` goes to block 0. -/
theorem erase_sector_dnload_blocks (replies : List StatusMsg) (sector : Sector) :
    ∀ b ∈ dnload_blocks (erase_sector replies sector).1, b = 0 := by
  have hev0 := expect_state_events replies []
    [DfuState.dfuIdle, DfuState.dfuDnloadIdle] "Cannot erase sector"
  have hdn0 := dnload_blocks_nil _ hev0
  rcases hE : expect_state replies [] [DfuState.dfuIdle, DfuState.dfuDnloadIdle]
      "Cannot erase sector" with ⟨ev0, r0⟩
  rw [hE] at hdn0
  intro b hb
  cases r0 with
  | ok rest1 =>
    have h1 := (erase_cmd_trace rest1 sector.addr).1
    simp [erase_sector, hE, dnload_blocks_append, hdn0, h1] at hb
    exact hb
  | dfuErr a b' c d => simp [erase_sector, hE, hdn0] at hb
  | exn s => simp [erase_sector, hE, hdn0] at hb
  | outOfReplies => simp [erase_sector, hE, hdn0] at hb

/-! ### C3 — transfer size arithmetic -/

/-- Scripted reply reporting dfuIDLE with zero poll interval. -/
def msgIdle : StatusMsg :=
  ⟨DfuStatus.ok, 0, 0, 0, DfuState.dfuIdle, "ok"⟩

/-- Scripted reply reporting dfuDNLOAD-IDLE with zero poll interval. -/
def msgDnloadIdle : StatusMsg :=
  ⟨DfuStatus.ok, 0, 0, 0, DfuState.dfuDnloadIdle, "ok"⟩

/-- C3: the transfer size is `gcd(sector.length, max_transfer_size)`, which
divides the sector length evenly and is at most the max transfer size; the
number of data blocks a successful `write_sector` downloads equals
`sector.length / gcd`; and for a 128 KiB sector with a 2048-byte max
transfer size the transfer size is 2048 and 64 blocks are written. -/
theorem write_sector_transfer_arithmetic (L M : Nat) (replies : List StatusMsg)
    (sector : Sector) (data : List Nat) (M' : Nat) :
    (0 < L → 0 < M →
      transfer_size L M ∣ L ∧ transfer_size L M ≤ M
        ∧ num_blocks L M = L / Nat.gcd L M
        ∧ num_blocks L M * transfer_size L M = L)
    ∧ (∀ rest, (write_sector replies sector data M').2 = OpResult.ok rest →
        (data_dnloads (write_sector replies sector data M').1).length
          = num_blocks sector.len M')
    ∧ transfer_size 131072 2048 = 2048
    ∧ num_blocks 131072 2048 = 64 := by
  refine ⟨fun hL hM => ?_, fun rest hrest => ?_, by decide, by decide⟩
  · exact ⟨Nat.gcd_dvd_left L M, Nat.gcd_le_right _ hM, rfl,
      Nat.div_mul_cancel (Nat.gcd_dvd_left L M)⟩
  · rw [(write_sector_trace replies sector data M').2 rest hrest]
    simp [num_blocks]

/-- C3 witness: the 128 KiB instance, and a concrete successful 4-byte
sector write with max transfer size 2, which downloads 2 data blocks. -/
theorem write_sector_transfer_arithmetic_witness :
    (transfer_size 131072 2048 ∣ 131072 ∧ transfer_size 131072 2048 ≤ 2048
      ∧ num_blocks 131072 2048 = 131072 / Nat.gcd 131072 2048
      ∧ num_blocks 131072 2048 * transfer_size 131072 2048 = 131072)
    ∧ (data_dnloads (write_sector [msgIdle, msgIdle, msgDnloadIdle, msgDnloadIdle,
        msgDnloadIdle] { addr := 8, len := 4 } [10, 11, 12, 13] 2).1).length
        = num_blocks 4 2 :=
  ⟨(write_sector_transfer_arithmetic 131072 2048 [] { addr := 0, len := 0 } [] 0).1
      (by decide) (by decide),
   (write_sector_transfer_arithmetic 131072 2048
      [msgIdle, msgIdle, msgDnloadIdle, msgDnloadIdle, msgDnloadIdle]
      { addr := 8, len := 4 } [10, 11, 12, 13] 2).2.1 [] (by decide)⟩

/-! ### C10 — block number discipline -/

/-- C10: the i-th data block of a sector transfer is downloaded or uploaded
with block number `i + 2`, never `i` — on a successful write the data
DNLOADs are exactly blocks `2, 3, ...` carrying the consecutive slices, and
on a successful read the UPLOADs are exactly blocks `2, 3, ...` for the
sector's `num_blocks` blocks; block number 0 carries exactly the vendor
commands (set-address, erase, read-unprotect); and block number 1 is never
used by any transfer, so data transfers and vendor commands cannot collide
on a block number. -/
theorem block_number_reservation (replies : List StatusMsg) (sector : Sector)
    (data : List Nat) (M addr : Nat) :
    (∀ rest, (write_sector replies sector data M).2 = OpResult.ok rest →
      data_dnloads (write_sector replies sector data M).1
        = (List.range (num_blocks sector.len M)).map
            (fun i => (i + 2, (data.drop (i * transfer_size sector.len M)).take
              (transfer_size sector.len M))))
    ∧ dnload_blocks (_set_address replies addr).1 = [0]
    ∧ dnload_blocks (_erase replies addr).1 = [0]
    ∧ dnload_blocks (unprotect replies).1 = [0]
    ∧ (∀ b ∈ dnload_blocks (write_sector replies sector data M).1, b = 0 ∨ 2 ≤ b)
    ∧ 1 ∉ dnload_blocks (write_sector replies sector data M).1
    ∧ (∀ b ∈ upload_blocks (read_sector replies sector M).1, 2 ≤ b)
    ∧ (∀ rest, (read_sector replies sector M).2 = OpResult.ok rest →
        upload_blocks (read_sector replies sector M).1
          = (List.range (num_blocks sector.len M)).map (fun i => i + 2))
    ∧ 1 ∉ dnload_blocks (read_sector replies sector M).1
    ∧ 1 ∉ dnload_blocks (erase_sector replies sector).1 := by
  obtain ⟨hw1, hw2⟩ := write_sector_trace replies sector data M
  obtain ⟨hr1, hr2, hr3⟩ := read_sector_trace replies sector M
  refine ⟨fun rest hrest => ?_, (set_address_trace replies addr).1,
    (erase_cmd_trace replies addr).1, unprotect_trace replies, hw1, ?_, hr2,
    fun rest hrest => ?_, ?_, ?_⟩
  · rw [hw2 rest hrest, List.range_eq_range']
  · intro h1
    rcases hw1 1 h1 with h | h <;> omega
  · rw [hr3 rest hrest, List.range_eq_range']
  · intro h1
    have := hr1 1 h1
    omega
  · intro h1
    have := erase_sector_dnload_blocks replies sector 1 h1
    omega

/-- C10 witness: a concrete successful two-block sector write downloads
data blocks 2 and 3 with the two halves of the data, and a concrete
successful read of the same sector uploads exactly blocks 2 and 3. -/
theorem block_number_reservation_witness :
    data_dnloads (write_sector [msgIdle, msgIdle, msgDnloadIdle, msgDnloadIdle,
        msgDnloadIdle] { addr := 8, len := 4 } [10, 11, 12, 13] 2).1
      = (List.range (num_blocks 4 2)).map
          (fun i => (i + 2, (([10, 11, 12, 13] : List Nat).drop (i * transfer_size 4 2)).take
            (transfer_size 4 2)))
    ∧ upload_blocks (read_sector [msgIdle, msgDnloadIdle]
          { addr := 8, len := 4 } 2).1
        = (List.range (num_blocks 4 2)).map (fun i => i + 2) :=
  ⟨(block_number_reservation [msgIdle, msgIdle, msgDnloadIdle, msgDnloadIdle,
      msgDnloadIdle] { addr := 8, len := 4 } [10, 11, 12, 13] 2 0).1 [] (by decide),
   (block_number_reservation [msgIdle, msgDnloadIdle] { addr := 8, len := 4 }
      [] 2 0).2.2.2.2.2.2.2.1 [] (by decide)⟩

/-! ### C9 — erase stage sector selection -/

/-- A successful `erase_sector` issues exactly one ERASE command, for the
sector's start address. -/
theorem erase_sector_payload (replies : List StatusMsg) (sector : Sector)
    (rest : List StatusMsg) (h : (erase_sector replies sector).2 = OpResult.ok rest) :
    erase_payloads (erase_sector replies sector).1
      = [_address_to_4bytes sector.addr] := by
  have hev0 := expect_state_events replies []
    [DfuState.dfuIdle, DfuState.dfuDnloadIdle] "Cannot erase sector"
  have hep0 := erase_payloads_nil _ hev0
  rcases hE : expect_state replies [] [DfuState.dfuIdle, DfuState.dfuDnloadIdle]
      "Cannot erase sector" with ⟨ev0, r0⟩
  rw [hE] at hep0
  cases r0 with
  | ok rest1 =>
    have h2 := (erase_cmd_trace rest1 sector.addr).2.1
    simp [erase_sector, hE, erase_payloads_append, hep0, h2]
  | dfuErr a b c d => simp [erase_sector, hE] at h
  | exn s => simp [erase_sector, hE] at h
  | outOfReplies => simp [erase_sector, hE] at h

/-- A successful erase loop issues exactly one ERASE command per listed
sector, in list order, addressed at each sector's start. -/
theorem run_erases_payloads : ∀ (sectors : List Sector) (replies rest : List StatusMsg),
    (run_erases sectors replies).2 = OpResult.ok rest →
    erase_payloads (run_erases sectors replies).1
      = sectors.map (fun s => _address_to_4bytes s.addr) := by
  intro sectors
  induction sectors with
  | nil => intro replies rest _; rfl
  | cons s ss ih =>
    intro replies rest h
    rcases hE : erase_sector replies s with ⟨ev, r⟩
    cases r with
    | ok rest1 =>
      have hp := erase_sector_payload replies s rest1 (by rw [hE])
      rw [hE] at hp
      simp only [run_erases, hE] at h ⊢
      simp only [erase_payloads_append, hp, List.map_cons]
      rw [ih rest1 rest h]
      rfl
    | dfuErr a b c d => simp [run_erases, hE] at h
    | exn s' => simp [run_erases, hE] at h
    | outOfReplies => simp [run_erases, hE] at h

/-- C9: with `erase_all` the erase stage of `write_firmware` erases exactly
the sectors of the whole `Internal Flash` region, in region order,
regardless of the write plan; without it, exactly the plan's touched
sectors, in plan order. -/
theorem erase_stage_selection (erase_all : Bool) (flash : List Sector)
    (plan : List (Sector × List Nat)) (replies : List StatusMsg) :
    erase_stage_sectors true flash plan = flash
    ∧ erase_stage_sectors false flash plan = plan.map Prod.fst
    ∧ ∀ rest, (erase_stage erase_all flash plan replies).2 = OpResult.ok rest →
        erase_payloads (erase_stage erase_all flash plan replies).1
          = (erase_stage_sectors erase_all flash plan).map
              (fun s => _address_to_4bytes s.addr) := by
  refine ⟨rfl, rfl, fun rest h => ?_⟩
  exact run_erases_payloads _ replies rest h

/-- An 8-sector flash region of 4-byte sectors. -/
def flash8 : List Sector :=
  [{ addr := 0, len := 4 }, { addr := 4, len := 4 }, { addr := 8, len := 4 },
   { addr := 12, len := 4 }, { addr := 16, len := 4 }, { addr := 20, len := 4 },
   { addr := 24, len := 4 }, { addr := 28, len := 4 }]

/-- Cooperative reply script for eight consecutive sector erases. -/
def replies16 : List StatusMsg :=
  [msgIdle, msgDnloadIdle, msgIdle, msgDnloadIdle, msgIdle, msgDnloadIdle,
   msgIdle, msgDnloadIdle, msgIdle, msgDnloadIdle, msgIdle, msgDnloadIdle,
   msgIdle, msgDnloadIdle, msgIdle, msgDnloadIdle]

/-- C9 witness: on an 8-sector device whose firmware touches a single
sector, `erase_all` erases all 8 sectors. -/
theorem erase_stage_selection_witness :
    (_populate_sectors flash8 [⟨"s", 9, [1, 2]⟩]).length = 1
    ∧ erase_payloads (erase_stage true flash8
        (_populate_sectors flash8 [⟨"s", 9, [1, 2]⟩]) replies16).1
      = flash8.map (fun s => _address_to_4bytes s.addr) :=
  ⟨by decide,
   (erase_stage_selection true flash8 (_populate_sectors flash8 [⟨"s", 9, [1, 2]⟩])
     replies16).2.2 [] (by decide)⟩

/-! ### C7 — verification and first-mismatch reporting -/

/-- `first_mismatch_from xs ys p` returns `p + k` exactly when `k` is the
least offset at which `xs` and `ys` differ. -/
theorem first_mismatch_from_spec : ∀ (xs ys : List Nat) (p i : Nat),
    first_mismatch_from xs ys p = some i ↔
      ∃ k, i = p + k ∧ k < xs.length ∧ k < ys.length
        ∧ xs.getD k 0 ≠ ys.getD k 0
        ∧ ∀ j < k, xs.getD j 0 = ys.getD j 0 := by
  intro xs
  induction xs with
  | nil =>
    intro ys p i
    simp [first_mismatch_from]
  | cons x xs ih =>
    intro ys p i
    cases ys with
    | nil => simp [first_mismatch_from]
    | cons y ys =>
      by_cases hxy : x = y
      · subst hxy
        rw [show first_mismatch_from (x :: xs) (x :: ys) p
            = first_mismatch_from xs ys (p + 1) by simp [first_mismatch_from]]
        rw [ih ys (p + 1) i]
        constructor
        · rintro ⟨k, hi, h1, h2, hne, hall⟩
          refine ⟨k + 1, by omega, by simpa using h1, by simpa using h2, ?_, ?_⟩
          · simpa [List.getD_cons_succ] using hne
          · intro j hj
            cases j with
            | zero => simp
            | succ j' =>
              simp only [List.getD_cons_succ]
              exact hall j' (by omega)
        · rintro ⟨k, hi, h1, h2, hne, hall⟩
          cases k with
          | zero => simp at hne
          | succ k' =>
            refine ⟨k', by omega, by simpa using h1, by simpa using h2, ?_, ?_⟩
            · simpa [List.getD_cons_succ] using hne
            · intro j hj
              have := hall (j + 1) (by omega)
              simpa [List.getD_cons_succ] using this
      · rw [show first_mismatch_from (x :: xs) (y :: ys) p = some p by
            simp [first_mismatch_from, hxy]]
        constructor
        · rintro h
          injection h with h'
          refine ⟨0, by omega, by simp, by simp, by simpa using hxy, ?_⟩
          intro j hj
          exact absurd hj (Nat.not_lt_zero j)
        · rintro ⟨k, hi, h1, h2, hne, hall⟩
          cases k with
          | zero => simp [hi]
          | succ k' =>
            have := hall 0 (by omega)
            simp at this
            exact absurd this hxy

/-- Two equal-length lists have no first mismatch exactly when they are
equal. -/
theorem first_mismatch_from_none : ∀ (xs ys : List Nat) (p : Nat),
    xs.length = ys.length →
    (first_mismatch_from xs ys p = none ↔ xs = ys) := by
  intro xs
  induction xs with
  | nil =>
    intro ys p h
    cases ys with
    | nil => simp [first_mismatch_from]
    | cons y ys => simp at h
  | cons x xs ih =>
    intro ys p h
    cases ys with
    | nil => simp at h
    | cons y ys =>
      by_cases hxy : x = y
      · subst hxy
        rw [show first_mismatch_from (x :: xs) (x :: ys) p
            = first_mismatch_from xs ys (p + 1) by simp [first_mismatch_from]]
        rw [ih ys (p + 1) (by simpa using h)]
        simp
      · rw [show first_mismatch_from (x :: xs) (y :: ys) p = some p by
            simp [first_mismatch_from, hxy]]
        simp [hxy]

/-- C7: sector verification fails exactly when the observed and expected
buffers differ; `_get_first_mismatch_index` raises on unequal lengths and
otherwise returns the least differing index, or `none` when the buffers are
equal; and on a mismatch at least index `i` the failure reports the address
`sector start + (i - i % 16)` with the expected and observed 16-byte
windows at that aligned offset. -/
theorem verify_sector_first_mismatch (observed expected : List Nat)
    (sectorAddr : Nat) :
    (observed.length ≠ expected.length →
      _get_first_mismatch_index observed expected
        = Except.error "arrays must be same size")
    ∧ (observed.length = expected.length →
      ((_get_first_mismatch_index observed expected = Except.ok none)
          ↔ observed = expected)
      ∧ ((verify_sector sectorAddr observed expected = Except.ok none)
          ↔ observed = expected)
      ∧ (∀ i, _get_first_mismatch_index observed expected = Except.ok (some i) ↔
          (i < observed.length ∧ observed.getD i 0 ≠ expected.getD i 0
            ∧ ∀ j < i, observed.getD j 0 = expected.getD j 0))
      ∧ (∀ i, _get_first_mismatch_index observed expected = Except.ok (some i) →
          verify_sector sectorAddr observed expected = Except.ok (some
            { address := sectorAddr + (i - i % 16)
              expectedWindow := (expected.drop (i - i % 16)).take 16
              observedWindow := (observed.drop (i - i % 16)).take 16 }))) := by
  constructor
  · intro h
    simp [_get_first_mismatch_index, h]
  · intro h
    have hok : _get_first_mismatch_index observed expected
        = Except.ok (first_mismatch_from observed expected 0) := by
      simp [_get_first_mismatch_index, h]
    refine ⟨?_, ?_, ?_, ?_⟩
    · rw [hok]
      simp only [Except.ok.injEq]
      exact first_mismatch_from_none observed expected 0 h
    · have hnone := first_mismatch_from_none observed expected 0 h
      simp only [verify_sector, hok]
      cases hfm : first_mismatch_from observed expected 0 with
      | none => simpa [hfm] using hnone
      | some i =>
        simp only [hfm] at hnone ⊢
        constructor
        · intro hc
          simp at hc
        · intro he
          exact absurd (hnone.mpr he) (by simp)
    · intro i
      rw [hok]
      simp only [Except.ok.injEq]
      rw [first_mismatch_from_spec observed expected 0 i]
      constructor
      · rintro ⟨k, hi, h1, h2, hne, hall⟩
        subst hi
        exact ⟨by simpa using h1, by simpa using hne, by simpa using hall⟩
      · rintro ⟨h1, hne, hall⟩
        exact ⟨i, by omega, h1, by omega, hne, hall⟩
    · intro i hi
      simp [verify_sector, hi]

end Dfu

namespace Dfu

theorem getD_splice (c s : List Nat) (off j : Nat) (hoff : off ≤ c.length) :
    (c.take off ++ s ++ c.drop (off + s.length)).getD j 0
      = if j < off then c.getD j 0
        else if j < off + s.length then s.getD (j - off) 0
        else c.getD j 0 := by
  have hta : (c.take off).length = off := by simp; omega
  simp only [List.getD_eq_getElem?_getD, List.append_assoc, List.getElem?_append,
    List.getElem?_take, List.getElem?_drop, hta, List.length_append]
  by_cases h1 : j < off
  · simp [h1]
  · simp only [if_neg h1]
    by_cases h2 : j - off < s.length
    · simp only [if_pos h2, if_pos (by omega : j < off + s.length)]
    · simp only [if_neg h2, if_neg (by omega : ¬ j < off + s.length)]
      have : off + s.length + (j - off - s.length) = j := by omega
      rw [this]

theorem populate_step_length (sa : Nat) (st : List Nat × Bool) (sec : FlashSec) :
    (populate_step sa st sec).1.length = st.1.length := by
  simp only [populate_step]
  split_ifs <;>
    (simp only [List.length_append, List.length_take, List.length_drop] at * <;> omega)


theorem populate_step_getD (sa : Nat) (st : List Nat × Bool) (sec : FlashSec)
    (j : Nat) (hj : j < st.1.length) :
    (populate_step sa st sec).1.getD j 0
      = if covers (sa + j) sec then sec.content.getD (sa + j - sec.addr) 0
        else st.1.getD j 0 := by
  have hcov : (covers (sa + j) sec = true) ↔
      (sec.addr ≤ sa + j ∧ sa + j < sec.addr + sec.content.length) := by
    simp [covers]
  simp only [populate_step]
  by_cases h1 : sec.addr + sec.content.length ≤ sa
  · rw [if_pos h1, if_neg (by simp only [hcov]; omega)]
  · by_cases h2 : sa + st.1.length ≤ sec.addr
    · rw [if_neg h1, if_pos h2, if_neg (by simp only [hcov]; omega)]
    · rw [if_neg h1, if_neg h2]
      by_cases hA : sec.addr < sa
      · simp only [if_pos hA, Nat.sub_self]
        rw [getD_splice st.1 _ 0 j (Nat.zero_le _)]
        simp only [Nat.zero_add, if_neg (Nat.not_lt_zero j), Nat.sub_zero]
        by_cases hC : sa + st.1.length
            < sa + (List.drop (sa - sec.addr) sec.content).length
        · rw [if_pos hC]
          simp only [List.length_drop] at hC
          simp only [List.length_take, List.length_drop]
          rw [if_pos (by omega : j < min (sa + st.1.length - sa)
            (sec.content.length - (sa - sec.addr)))]
          rw [if_pos (hcov.mpr ⟨by omega, by omega⟩)]
          simp only [List.getD_eq_getElem?_getD, List.getElem?_take,
            if_pos (by omega : j < sa + st.1.length - sa), List.getElem?_drop]
          rw [show sa - sec.addr + j = sa + j - sec.addr from by omega]
        · rw [if_neg hC]
          simp only [List.length_drop] at hC
          simp only [List.length_drop]
          by_cases hj2 : j < sec.content.length - (sa - sec.addr)
          · rw [if_pos hj2, if_pos (hcov.mpr ⟨by omega, by omega⟩)]
            simp only [List.getD_eq_getElem?_getD, List.getElem?_drop]
            rw [show sa - sec.addr + j = sa + j - sec.addr from by omega]
          · rw [if_neg hj2, if_neg (by simp only [hcov]; omega)]
      · simp only [if_neg hA]
        rw [getD_splice st.1 _ (sec.addr - sa) j (by omega)]
        by_cases hC : sa + st.1.length < sec.addr + sec.content.length
        · rw [if_pos hC]
          simp only [List.length_take]
          by_cases hj1 : j < sec.addr - sa
          · rw [if_pos hj1, if_neg (by simp only [hcov]; omega)]
          · rw [if_neg hj1,
              if_pos (by omega : j < sec.addr - sa
                + min (sa + st.1.length - sec.addr) sec.content.length),
              if_pos (hcov.mpr ⟨by omega, by omega⟩)]
            simp only [List.getD_eq_getElem?_getD, List.getElem?_take,
              if_pos (by omega : j - (sec.addr - sa) < sa + st.1.length - sec.addr)]
            rw [show j - (sec.addr - sa) = sa + j - sec.addr from by omega]
        · rw [if_neg hC]
          by_cases hj1 : j < sec.addr - sa
          · rw [if_pos hj1, if_neg (by simp only [hcov]; omega)]
          · by_cases hj2 : j < sec.addr - sa + sec.content.length
            · rw [if_neg hj1, if_pos hj2, if_pos (hcov.mpr ⟨by omega, by omega⟩)]
              rw [show j - (sec.addr - sa) = sa + j - sec.addr from by omega]
            · rw [if_neg hj1, if_neg hj2, if_neg (by simp only [hcov]; omega)]

theorem list_any_congr {α : Type} {l : List α} {p q : α → Bool}
    (h : ∀ a ∈ l, p a = q a) : l.any p = l.any q := by
  induction l with
  | nil => rfl
  | cons x xs ih =>
    simp only [List.any_cons, h x (List.mem_cons_self x xs),
      ih (fun a ha => h a (List.mem_cons_of_mem _ ha))]

/-- The touched flag of one `populate_step`: set exactly when the section
passes both skip checks. -/
theorem populate_step_touched (sa : Nat) (st : List Nat × Bool) (sec : FlashSec) :
    (populate_step sa st sec).2
      = (st.2 || (decide (sa < sec.addr + sec.content.length)
          && decide (sec.addr < sa + st.1.length))) := by
  simp only [populate_step]
  split_ifs with h1 h2 <;>
    first
      | (have ha : ¬ sa < sec.addr + sec.content.length := by omega
         simp [ha])
      | (have hb : ¬ sec.addr < sa + st.1.length := by omega
         simp [hb])
      | (have ha : sa < sec.addr + sec.content.length := by omega
         have hb : sec.addr < sa + st.1.length := by omega
         simp [ha, hb])

/-- Folding `populate_step` over the sections preserves the buffer length
and computes, at each offset, the last-overlapping-section byte. -/
theorem populate_fold_spec (sa : Nat) :
    ∀ (sections : List FlashSec) (st : List Nat × Bool),
      (sections.foldl (populate_step sa) st).1.length = st.1.length
      ∧ ∀ j, j < st.1.length →
          (sections.foldl (populate_step sa) st).1.getD j 0
            = sections.foldl
                (fun acc sec => if covers (sa + j) sec then
                    sec.content.getD (sa + j - sec.addr) 0 else acc)
                (st.1.getD j 0) := by
  intro sections
  induction sections with
  | nil => exact fun st => ⟨rfl, fun j hj => rfl⟩
  | cons sec secs ih =>
    intro st
    obtain ⟨ih1, ih2⟩ := ih (populate_step sa st sec)
    constructor
    · simp only [List.foldl_cons]
      rw [ih1, populate_step_length]
    · intro j hj
      simp only [List.foldl_cons]
      rw [ih2 j (by rw [populate_step_length]; exact hj),
        populate_step_getD sa st sec j hj]

/-- The touched flag after folding all sections. -/
theorem populate_fold_touched (sa : Nat) :
    ∀ (sections : List FlashSec) (st : List Nat × Bool),
      (sections.foldl (populate_step sa) st).2
        = (st.2 || sections.any (fun sec =>
            decide (sa < sec.addr + sec.content.length)
            && decide (sec.addr < sa + st.1.length))) := by
  intro sections
  induction sections with
  | nil => intro st; simp
  | cons sec secs ih =>
    intro st
    simp only [List.foldl_cons, List.any_cons]
    rw [ih (populate_step sa st sec), populate_step_touched, populate_step_length]
    cases st.2 <;> simp [Bool.or_assoc]


/-! ### C1 — sector write plan buffer contents -/

/-- C1: every entry of the sector write plan pairs a sector of the input
list with a buffer of exactly the sector's length in which each offset
covered by an overlapping section holds that section's address-cropped byte
(the last such section winning) and every other offset holds the erase
value 0xFF — `byte_at` being precisely that last-overlapping-or-0xFF
function. -/
theorem populate_sectors_buffer (sectors : List Sector) (sections : List FlashSec)
    (sector : Sector) (buf : List Nat)
    (hmem : (sector, buf) ∈ _populate_sectors sectors sections) :
    sector ∈ sectors
    ∧ buf.length = sector.len
    ∧ ∀ j, j < sector.len → buf.getD j 0 = byte_at sections (sector.addr + j) := by
  simp only [_populate_sectors, List.mem_filterMap] at hmem
  obtain ⟨a, ha, hfa⟩ := hmem
  by_cases ht : (sections.foldl (populate_step a.addr)
      (List.replicate a.len 0xff, false)).2 = true
  · rw [if_pos ht] at hfa
    rw [Option.some.injEq, Prod.mk.injEq] at hfa
    obtain ⟨h1, h2⟩ := hfa
    subst h1
    obtain ⟨hl, hp⟩ := populate_fold_spec a.addr sections
      (List.replicate a.len 0xff, false)
    refine ⟨ha, ?_, ?_⟩
    · rw [← h2, hl]
      simp
    · intro j hj
      rw [← h2, hp j (by simpa using hj)]
      have hre : (List.replicate a.len (0xff : Nat), false).1.getD j 0 = 0xff := by
        simp [List.getD_eq_getElem?_getD, List.getElem?_replicate, hj]
      rw [hre]
      rfl
  · rw [if_neg ht] at hfa
    exact absurd hfa (by simp)

/-- C1 witness: a section overlapping the tail of a 4-byte sector. -/
theorem populate_sectors_buffer_witness :
    ({ addr := 0, len := 4 } : Sector) ∈ [({ addr := 0, len := 4 } : Sector)]
    ∧ ([255, 255, 1, 2] : List Nat).length = ({ addr := 0, len := 4 } : Sector).len
    ∧ ∀ j, j < ({ addr := 0, len := 4 } : Sector).len →
        ([255, 255, 1, 2] : List Nat).getD j 0
          = byte_at [⟨"a", 2, [1, 2, 3, 4]⟩] (({ addr := 0, len := 4 } : Sector).addr + j) :=
  populate_sectors_buffer [{ addr := 0, len := 4 }] [⟨"a", 2, [1, 2, 3, 4]⟩]
    { addr := 0, len := 4 } [255, 255, 1, 2] (by decide)

/-! ### C2 — which sectors enter the plan -/

/-- C2 counterexample: the plan is not always the sectors whose address
range intersects some section range.  A zero-length section strictly inside
a sector, or a zero-length sector inside a section, has an empty
intersection with it, yet `_populate_sectors` emits the sector. -/
theorem populate_sectors_plan_counterexample :
    ((_populate_sectors [{ addr := 0, len := 4 }] [⟨"e", 2, []⟩]).map Prod.fst
        = [{ addr := 0, len := 4 }]
      ∧ ∀ p : Nat, ¬((0 ≤ p ∧ p < 0 + 4) ∧ (2 ≤ p ∧ p < 2 + 0)))
    ∧ ((_populate_sectors [{ addr := 4, len := 0 }] [⟨"s", 2, [9, 9, 9, 9]⟩]).map Prod.fst
        = [{ addr := 4, len := 0 }]
      ∧ ∀ p : Nat, ¬((4 ≤ p ∧ p < 4 + 0) ∧ (2 ≤ p ∧ p < 2 + 4))) := by
  refine ⟨⟨by decide, ?_⟩, ⟨by decide, ?_⟩⟩ <;> intro p h <;> omega

/-- C2 (amended): for positive-length sectors and nonempty sections — as
produced by `get_flash_sections` — the plan's sectors are exactly the input
sectors whose half-open range intersects some section's half-open range, in
input order; `ranges_intersect` coincides with nonempty intersection of the
half-open ranges. -/
theorem populate_sectors_plan : ∀ (sectors : List Sector) (sections : List FlashSec),
    (∀ s ∈ sectors, 0 < s.len) → (∀ sec ∈ sections, sec.content ≠ []) →
    (∀ a₁ l₁ a₂ l₂ : Nat, ranges_intersect a₁ l₁ a₂ l₂ = true ↔
      ∃ p, (a₁ ≤ p ∧ p < a₁ + l₁) ∧ (a₂ ≤ p ∧ p < a₂ + l₂))
    ∧ (_populate_sectors sectors sections).map Prod.fst
        = sectors.filter (fun s => sections.any (fun sec =>
            ranges_intersect s.addr s.len sec.addr sec.content.length)) := by
  have hri : ∀ a₁ l₁ a₂ l₂ : Nat, ranges_intersect a₁ l₁ a₂ l₂ = true ↔
      ∃ p, (a₁ ≤ p ∧ p < a₁ + l₁) ∧ (a₂ ≤ p ∧ p < a₂ + l₂) := by
    intro a₁ l₁ a₂ l₂
    simp only [ranges_intersect, decide_eq_true_eq]
    constructor
    · intro h
      exact ⟨max a₁ a₂, by omega, by omega⟩
    · rintro ⟨p, h₁, h₂⟩
      omega
  intro sectors
  induction sectors with
  | nil => intro sections _ _; exact ⟨hri, rfl⟩
  | cons s ss ih =>
    intro sections hsec hcont
    refine ⟨hri, ?_⟩
    have hsec' : ∀ x ∈ ss, 0 < x.len :=
      fun x hx => hsec x (List.mem_cons_of_mem _ hx)
    have hrec := (ih sections hsec' hcont).2
    have hfold : (sections.foldl (populate_step s.addr)
          (List.replicate s.len (0xff : Nat), false)).2
        = sections.any (fun sec =>
            ranges_intersect s.addr s.len sec.addr sec.content.length) := by
      rw [populate_fold_touched]
      simp only [Bool.false_or]
      refine list_any_congr (fun sec hs => ?_)
      have h1 : 0 < sec.content.length := List.length_pos.mpr (hcont sec hs)
      have h2 : 0 < s.len := hsec s (List.mem_cons_self s ss)
      simp only [ranges_intersect]
      rw [Bool.eq_iff_iff]
      simp only [Bool.and_eq_true, decide_eq_true_eq, List.length_replicate]
      omega
    cases hany : sections.any (fun sec =>
        ranges_intersect s.addr s.len sec.addr sec.content.length) with
    | true =>
      rw [hany] at hfold
      simp only [_populate_sectors] at hrec ⊢
      rw [List.filterMap_cons, List.filter_cons]
      simp [hfold, hany, hrec]
    | false =>
      rw [hany] at hfold
      simp only [_populate_sectors] at hrec ⊢
      rw [List.filterMap_cons, List.filter_cons]
      simp [hfold, hany, hrec]

/-- C2 witness: one overlapped and one untouched positive-length sector. -/
theorem populate_sectors_plan_witness :
    (∀ a₁ l₁ a₂ l₂ : Nat, ranges_intersect a₁ l₁ a₂ l₂ = true ↔
      ∃ p, (a₁ ≤ p ∧ p < a₁ + l₁) ∧ (a₂ ≤ p ∧ p < a₂ + l₂))
    ∧ (_populate_sectors [{ addr := 0, len := 4 }, { addr := 8, len := 4 }]
          [⟨"a", 1, [5]⟩]).map Prod.fst
        = List.filter (fun s => List.any [(⟨"a", 1, [5]⟩ : FlashSec)] (fun sec =>
            ranges_intersect s.addr s.len sec.addr sec.content.length))
            [{ addr := 0, len := 4 }, { addr := 8, len := 4 }] :=
  populate_sectors_plan [{ addr := 0, len := 4 }, { addr := 8, len := 4 }]
    [⟨"a", 1, [5]⟩] (by decide) (by decide)


/-- C7 witness: a flipped byte at index 20 of a 21-byte sector is reported
at the 16-byte-aligned window starting at offset 16. -/
theorem verify_sector_first_mismatch_witness :
    (List.replicate 20 (0 : Nat) ++ [5]).length = (List.replicate 21 (0 : Nat)).length
    ∧ _get_first_mismatch_index (List.replicate 20 (0 : Nat) ++ [5])
        (List.replicate 21 (0 : Nat)) = Except.ok (some 20)
    ∧ verify_sector 100 (List.replicate 20 (0 : Nat) ++ [5]) (List.replicate 21 (0 : Nat))
        = Except.ok (some
            { address := 100 + (20 - 20 % 16)
              expectedWindow := ((List.replicate 21 (0 : Nat)).drop (20 - 20 % 16)).take 16
              observedWindow := ((List.replicate 20 (0 : Nat) ++ [5]).drop (20 - 20 % 16)).take 16 }) :=
  ⟨by decide, rfl,
   ((verify_sector_first_mismatch (List.replicate 20 (0 : Nat) ++ [5])
      (List.replicate 21 (0 : Nat)) 100).2 (by decide)).2.2.2 20 rfl⟩

end Dfu

namespace Firmware

/-! ### C4 — ELF flash section extraction -/

/-- C4 counterexample: a section whose size is clipped by the segment's
on-disk size is yielded with its full `data()` buffer, not the clipped
effective-size bytes the claim describes. -/
theorem get_flash_sections_counterexample :
    get_flash_sections [⟨"PT_LOAD", 0, 0, 2⟩] [⟨"s", 0, 4, [1, 2, 3, 4]⟩]
        (fun _ _ => true)
      = [("s", 0, [1, 2, 3, 4])]
    ∧ flash_sections_clipped [⟨"PT_LOAD", 0, 0, 2⟩] [⟨"s", 0, 4, [1, 2, 3, 4]⟩]
        (fun _ _ => true)
      = [("s", 0, [1, 2])]
    ∧ get_flash_sections [⟨"PT_LOAD", 0, 0, 2⟩] [⟨"s", 0, 4, [1, 2, 3, 4]⟩]
        (fun _ _ => true)
      ≠ flash_sections_clipped [⟨"PT_LOAD", 0, 0, 2⟩] [⟨"s", 0, 4, [1, 2, 3, 4]⟩]
        (fun _ _ => true) :=
  ⟨by decide, by decide, by decide⟩

/-- C4 (amended): `get_flash_sections` yields one entry per section of a
`PT_LOAD` segment whose effective size after clipping to the segment's
on-disk range is strictly positive; the entry's address is the section's
virtual address translated to the segment's physical base and clamped up to
the segment start, and its buffer is the section's full `data()` (not the
clipped bytes). -/
theorem get_flash_sections_amended (segments : List ElfSegment)
    (sections : List ElfSection)
    (section_in_segment : ElfSegment → ElfSection → Bool) :
    get_flash_sections segments sections section_in_segment
      = flash_sections_amended segments sections section_in_segment := by
  simp only [get_flash_sections, flash_sections_amended]
  refine congrArg _ (funext fun seg => ?_)
  refine congrArg (fun f => List.filterMap f sections) (funext fun sec => ?_)
  by_cases hin : section_in_segment seg sec
  · simp only [if_pos hin, hin, true_and]
    simp only [flash_section_of, effective_size]
    split_ifs <;>
      first
        | rfl
        | (exfalso; omega)
        | (simp only [Option.some.injEq, Prod.mk.injEq]
           exact ⟨trivial, by omega, trivial⟩)
  · simp [hin]

end Firmware

